import Mathlib

/-!
Shallow embedding of the time-series analytics core of the chasingprophets
dashboard: the indicator series functions and weekly downsampling of
`src/pages/AssetPage.tsx`, the summary statistics of
`src/pages/Dashboard.tsx`, and the seasonal alignment ("Time Explorer")
of `src/components/mini/MiniIndicator.tsx`.

JavaScript numbers are modelled by exact rationals `ℚ` for the structural
and algebraic claims; the IEEE-754 special values (NaN, ±Infinity) that
matter for the NaN-propagation claim are modelled separately by `JSNum`.
`Math.sqrt` is not rational-valued, so the two functions that use it
(`bollingerSeries`, `computePriceStats`) take the square-root function as
an explicit parameter.  Calendar dates are modelled as day numbers counted
from a Monday epoch, so that the weekday of day `d` is `d % 7` with `0`
standing for Monday; `toISOString` week keys become the Monday day number
itself (string order on ISO dates agrees with day-number order).
-/

namespace ChasingProphets

/-- One OHLCV bar (the `PriceData` record consumed by the pages).  String
identification fields (`ticker`) play no part in any numeric claim and are
omitted; the four optional prophet forecast fields mirror
`PROPHET_OPTIONS` of `Dashboard.tsx`.  `volume` is optional in the source
(`r.volume || 0`). -/
structure PriceData where
  date : Nat
  open_ : ℚ
  high : ℚ
  low : ℚ
  close : ℚ
  volume : Option ℚ
  timeSage : Option ℚ
  trendOracle : Option ℚ
  marketMind : Option ℚ
  quantumPredictor : Option ℚ
deriving DecidableEq

instance : Inhabited PriceData := ⟨⟨0, 0, 0, 0, 0, none, none, none, none, none⟩⟩

/-- A bar with the given date and all prices equal to `c` (test helper for
concrete witnesses). -/
def bar (date : Nat) (c : ℚ) : PriceData := ⟨date, c, c, c, c, none, none, none, none, none⟩

/-- The `priceField` selector of `calculateReturnsSeries`
(`'open' | 'close' | 'high' | 'low'`). -/
inductive PriceField where
  | open_ | close | high | low
deriving DecidableEq

/-- Field access `price[priceField]`. -/
def PriceData.field (p : PriceData) : PriceField → ℚ
  | .open_ => p.open_
  | .close => p.close
  | .high => p.high
  | .low => p.low

/-- JavaScript `l.slice(start, stop)` for `0 ≤ start ≤ stop`: the elements
at indices `start .. stop-1`. -/
def jsSlice {α : Type} (l : List α) (start stop : Nat) : List α :=
  (l.take stop).drop start

/-- `simpleSMA` of AssetPage.tsx: SMA of the trailing `period` values, or
`null` when fewer than `period` values exist. -/
def simpleSMA (values : List ℚ) (period : Nat) : Option ℚ :=
  if values.length < period then none
  else some ((jsSlice values (values.length - period) values.length).sum / period)

/-- `smaSeries` of AssetPage.tsx: at index `i`, `null` while `i+1 < period`,
else the mean of `closes.slice(i+1-period, i+1)`. -/
def smaSeries (closes : List ℚ) (period : Nat) : List (Option ℚ) :=
  (List.range closes.length).map fun i =>
    if i + 1 < period then none
    else some ((jsSlice closes (i + 1 - period) (i + 1)).sum / period)

/-- Loop body of `emaSeries`: walks the remaining closes carrying the index
and the running `prev` state (`null` until the seed index). -/
def emaAux (closes : List ℚ) (period : Nat) (k : ℚ) :
    List ℚ → Nat → Option ℚ → List (Option ℚ)
  | [], _, _ => []
  | _price :: rest, i, none =>
      if i + 1 ≥ period then
        -- seed with SMA of first period
        let seed := (jsSlice closes (i + 1 - period) (i + 1)).sum / period
        some seed :: emaAux closes period k rest (i + 1) (some seed)
      else none :: emaAux closes period k rest (i + 1) none
  | price :: rest, i, some prev =>
      let v := price * k + prev * (1 - k)
      some v :: emaAux closes period k rest (i + 1) (some v)

/-- `emaSeries` of AssetPage.tsx: SMA-seeded exponential moving average
with `k = 2/(period+1)`. -/
def emaSeries (closes : List ℚ) (period : Nat) : List (Option ℚ) :=
  emaAux closes period (2 / ((period : ℚ) + 1)) closes 0 none

/-- The value reached by the EMA recurrence `acc ↦ c*k + acc*(1-k)` after
folding the window `w` starting from `prev`. -/
def emaVal (k prev : ℚ) (w : List ℚ) : ℚ :=
  w.foldl (fun acc c => c * k + acc * (1 - k)) prev

/-- Consecutive differences `l[j+1] - l[j]` (the `change` values of the
RSI loop). -/
def deltas (l : List ℚ) : List ℚ :=
  List.zipWith (fun a b => b - a) l l.tail

/-- Sum of the positive parts of the consecutive changes of `l`
(`gain = Math.max(0, change)` accumulated over the deltas). -/
def gainSum (l : List ℚ) : ℚ :=
  ((deltas l).map fun c => max 0 c).sum

/-- Sum of the negative parts of the consecutive changes of `l`
(`loss = Math.max(0, -change)` accumulated over the deltas). -/
def lossSum (l : List ℚ) : ℚ :=
  ((deltas l).map fun c => max 0 (-c)).sum

/-- The RSI value computed from the changes of the window `w`:
`avgGain`/`avgLoss` are the gain/loss sums over `w`'s consecutive changes
divided by `period`, `RS` is `100` when `avgLoss` is zero and
`avgGain/avgLoss` otherwise, and the result is `100 - 100/(1+RS)` (the
body shared by the seed step and the rolling-recompute step of
`rsiSeries`). -/
def rsiFrom (w : List ℚ) (period : Nat) : ℚ :=
  let avgGain := gainSum w / period
  let avgLoss := lossSum w / period
  let rs := if avgLoss = 0 then 100 else avgGain / avgLoss
  100 - 100 / (1 + rs)

/-- `rsiSeries` of AssetPage.tsx.  Index 0 is `null`; indices `1..period-1`
are `null` while gains/losses accumulate; index `period` is the seed RSI
over the first `period` changes (the window `closes[0..period]`); later
indices recompute gain/loss sums over the trailing window
`closes.slice(i+1-period, i+1)`. -/
def rsiSeries (closes : List ℚ) (period : Nat) : List (Option ℚ) :=
  (List.range closes.length).map fun i =>
    if i = 0 then none
    else if i ≤ period then
      if i = period then some (rsiFrom (jsSlice closes 0 (period + 1)) period)
      else none
    else some (rsiFrom (jsSlice closes (i + 1 - period) (i + 1)) period)

/-- The average loss the RSI computation divides by at a computed index
`i`: at the seed index `i = period` it is the loss sum over the first
`period` changes divided by `period`; at later indices it is the loss sum
over the trailing window divided by `period`. -/
def rsiAvgLoss (closes : List ℚ) (period : Nat) (i : Nat) : ℚ :=
  if i = period then lossSum (jsSlice closes 0 (period + 1)) / period
  else lossSum (jsSlice closes (i + 1 - period) (i + 1)) / period

/-- The `macd` array of `macdSeries` of AssetPage.tsx: the difference of
the fast and slow EMAs.  The source marks missing EMA values with `NaN`
(`v ?? NaN`) and tests them with `isNaN`; in the rational model those
markers are the `none` of the underlying `Option`. -/
def macdRaw (closes : List ℚ) (fast slow : Nat) : List (Option ℚ) :=
  (List.range closes.length).map fun i =>
    match (emaSeries closes fast).getD i none, (emaSeries closes slow).getD i none with
    | some f, some s => some (f - s)
    | _, _ => none

/-- The MACD signal line: EMA over the MACD values with the `NaN` markers
replaced by `0` (`isNaN(v) ? 0 : v`). -/
def macdSignal (closes : List ℚ) (fast slow signal : Nat) : List (Option ℚ) :=
  emaSeries ((macdRaw closes fast slow).map fun v => v.getD 0) signal

/-- `macdSeries` of AssetPage.tsx: the returned series is the histogram
`macd[i] - signal[i]`, `null` when either operand is marked missing. -/
def macdSeries (closes : List ℚ) (fast slow signal : Nat) : List (Option ℚ) :=
  let macd := macdRaw closes fast slow
  let signalLine := macdSignal closes fast slow signal
  (List.range macd.length).map fun i =>
    match macd.getD i none, signalLine.getD i none with
    | some v, some s => some (v - s)
    | _, _ => none

/-- Loop body of `obvSeries`: remaining closes, current index (for the
volume lookup `volumes[i] || 0`), previous close and running OBV. -/
def obvGo (volumes : List ℚ) : List ℚ → Nat → ℚ → ℚ → List ℚ
  | [], _, _, _ => []
  | c :: rest, i, prev, obv =>
      let obv' :=
        if c > prev then obv + volumes.getD i 0
        else if c < prev then obv - volumes.getD i 0
        else obv
      obv' :: obvGo volumes rest (i + 1) c obv'

/-- `obvSeries` of AssetPage.tsx: running on-balance volume, `0` at index
0, never `null`. -/
def obvSeries (closes volumes : List ℚ) : List ℚ :=
  match closes with
  | [] => []
  | c :: rest => 0 :: obvGo volumes rest 1 c 0

/-- The `trs` array of `atrSeries`: true range at each index, with
`high[0] - low[0]` at index 0 (missing neighbours read as `0`, which the
claims never observe since they assume aligned inputs). -/
def trueRanges (highs lows closes : List ℚ) : List ℚ :=
  (List.range highs.length).map fun i =>
    if i = 0 then highs.getD 0 0 - lows.getD 0 0
    else
      max (highs.getD i 0 - lows.getD i 0)
        (max |highs.getD i 0 - closes.getD (i - 1) 0| |lows.getD i 0 - closes.getD (i - 1) 0|)

/-- `atrSeries` of AssetPage.tsx: SMA of the true ranges over `period`,
with the same leading-`null` rule as `smaSeries`. -/
def atrSeries (highs lows closes : List ℚ) (period : Nat) : List (Option ℚ) :=
  let trs := trueRanges highs lows closes
  (List.range trs.length).map fun i =>
    if i + 1 < period then none
    else some ((jsSlice trs (i + 1 - period) (i + 1)).sum / period)

/-- `Math.max(...l)` for nonempty `l`: the maximum of the list.  (On an
empty argument list JavaScript returns `-Infinity`; the claims only reach
this on nonempty slices, where the `0` default is never observed.) -/
def jsMaxSpread (l : List ℚ) : ℚ :=
  match l with
  | [] => 0
  | x :: xs => xs.foldl max x

/-- `Math.min(...l)` for nonempty `l` (empty: `Infinity` in JavaScript,
unobserved by the claims). -/
def jsMinSpread (l : List ℚ) : ℚ :=
  match l with
  | [] => 0
  | x :: xs => xs.foldl min x

/-- The `%K` array of `stochasticSeries`: `null` before `kPeriod`
observations, else `(close - lowest low) / (highest high - lowest low) *
100`, with `0` when the range is zero. -/
def stochasticK (highs lows closes : List ℚ) (kPeriod : Nat) : List (Option ℚ) :=
  (List.range closes.length).map fun i =>
    if i + 1 < kPeriod then none
    else
      let sliceH := jsSlice highs (i + 1 - kPeriod) (i + 1)
      let sliceL := jsSlice lows (i + 1 - kPeriod) (i + 1)
      let hh := jsMaxSpread sliceH
      let ll := jsMinSpread sliceL
      some (if hh = ll then 0 else ((closes.getD i 0 - ll) / (hh - ll)) * 100)

/-- `stochasticSeries` of AssetPage.tsx: the pair `{k, d}` where `%D` is
the SMA of `%K` over `dPeriod` (missing `%K` values read as `0` via
`v ?? 0`), `null` until `kPeriod + dPeriod - 1` observations. -/
def stochasticSeries (highs lows closes : List ℚ) (kPeriod dPeriod : Nat) :
    List (Option ℚ) × List (Option ℚ) :=
  let kArr := stochasticK highs lows closes kPeriod
  let dArr := (List.range kArr.length).map fun i =>
    if i + 1 < kPeriod + dPeriod - 1 then none
    else some (((jsSlice kArr (i + 1 - dPeriod) (i + 1)).map fun v => v.getD 0).sum / dPeriod)
  (kArr, dArr)

/-- Result record of `bollingerSeries` (`{middle, upper, lower}`). -/
structure BollingerBands where
  middle : List (Option ℚ)
  upper : List (Option ℚ)
  lower : List (Option ℚ)
deriving DecidableEq

/-- Mean of the window `w` as `bollingerSeries` computes it
(`slice.reduce((s, v) => s + v, 0) / period`). -/
def windowMean (w : List ℚ) (period : Nat) : ℚ := w.sum / period

/-- Population variance of the window `w` about `windowMean` (the
`slice.reduce((s, v) => s + Math.pow(v - mean, 2), 0) / period` of
`bollingerSeries`: divide by `period`, not `period - 1`). -/
def windowVar (w : List ℚ) (period : Nat) : ℚ :=
  (w.map fun v => ((v - windowMean w period) ^ 2 : ℚ)).sum / period

/-- `bollingerSeries` of AssetPage.tsx.  `Math.sqrt` is supplied as the
parameter `sqrtFn` because the rationals are not closed under square
roots; every claim about the function holds for an arbitrary nonnegative
square-root model. -/
def bollingerSeries (sqrtFn : ℚ → ℚ) (closes : List ℚ) (period : Nat) (mult : ℚ) :
    BollingerBands :=
  let middle := smaSeries closes period
  let band : List (Option ℚ × Option ℚ) := (List.range closes.length).map fun i =>
    if i + 1 < period then (none, none)
    else
      let slice := jsSlice closes (i + 1 - period) (i + 1)
      let mean := windowMean slice period
      let sd := sqrtFn (windowVar slice period)
      (some (mean + mult * sd), some (mean - mult * sd))
  ⟨middle, band.map Prod.fst, band.map Prod.snd⟩

/-- `rocSeries` of AssetPage.tsx over exact rationals (see `rocSeriesJS`
for the IEEE-special-value behaviour at zero prices). -/
def rocSeries (closes : List ℚ) (period : Nat) : List (Option ℚ) :=
  (List.range closes.length).map fun i =>
    if i < period then none
    else some ((closes.getD i 0 / closes.getD (i - period) 0 - 1) * 100)

/-- `calculateReturnsSeries` of AssetPage.tsx over exact rationals (see
`calculateReturnsSeriesJS` for the IEEE behaviour at zero prices). -/
def calculateReturnsSeries (priceData : List PriceData) (period : Nat)
    (priceField : PriceField) : List (Option ℚ) :=
  (List.range priceData.length).map fun i =>
    if i < period then none
    else
      let currentPrice := (priceData.getD i default).field priceField
      let prevPrice := (priceData.getD (i - period) default).field priceField
      some (((currentPrice - prevPrice) / prevPrice) * 100)

/-- Monday of the week containing day `d`: the source computes
`d - ((getDay() + 6) % 7)`; with day numbers counted from a Monday epoch
this is `d - d % 7`. -/
def mondayOf (d : Nat) : Nat := d - d % 7

/-- A weekly aggregate bar.  The `high`/`low` folds of the source start
from `-Infinity`/`Infinity`, so they live in `WithBot ℚ`/`WithTop ℚ`
(`⊥`/`⊤` playing the role of the infinities; a nonempty group never
produces them). -/
structure WeeklyBar where
  date : Nat
  open_ : ℚ
  close : ℚ
  high : WithBot ℚ
  low : WithTop ℚ
  volume : ℚ
deriving DecidableEq

/-- `arr.reduce((s, r) => Math.max(s, r.high), -Infinity)`. -/
def jsMaxFold (l : List ℚ) : WithBot ℚ :=
  l.foldl (fun (s : WithBot ℚ) (v : ℚ) => max s ↑v) ⊥

/-- `arr.reduce((s, r) => Math.min(s, r.low), Infinity)`. -/
def jsMinFold (l : List ℚ) : WithTop ℚ :=
  l.foldl (fun (s : WithTop ℚ) (v : ℚ) => min s ↑v) ⊤

/-- `downsampleToWeekly` of AssetPage.tsx.  Bars are grouped by the Monday
of their week (`groups[key].push(p)` keeps input order, modelled by
`filter`); `Object.keys(groups).sort()` is the sorted list of distinct
Monday keys; each group is folded into one `WeeklyBar`.  Groups coming
from a key are nonempty, so the `headD`/`getLastD` defaults are never
observed. -/
def downsampleToWeekly (prices : List PriceData) : List WeeklyBar :=
  match prices with
  | [] => []
  | _ =>
    let keys := ((prices.map fun p => mondayOf p.date).dedup).mergeSort (· ≤ ·)
    keys.map fun k =>
      let arr := prices.filter fun p => mondayOf p.date = k
      ⟨k, (arr.headD default).open_, (arr.getLastD default).close,
        jsMaxFold (arr.map (·.high)), jsMinFold (arr.map (·.low)),
        arr.foldl (fun s r => s + r.volume.getD 0) 0⟩

/-! ### Seasonal alignment ("Time Explorer", MiniIndicator.tsx) -/

/-- The four sub-period window types of the Time Explorer. -/
inductive Window where
  | week | month | quarter | year
deriving DecidableEq

/-- `windowLengths` of the Time Explorer. -/
def windowLengths : Window → Nat
  | .week => 5
  | .month => 21
  | .quarter => 63
  | .year => 252

/-- The `filtered.forEach((entry, dayIndex) => ...)` loop: walks the
sub-period values with their day index, overwriting positions of the
`null`-filled accumulator (entries at or past `expectedLength` are
skipped, mirroring the `dayIndex >= expectedLength` guard). -/
def fillGo (baseline : ℚ) (expectedLength : Nat) :
    List ℚ → Nat → List (Option ℚ) → List (Option ℚ)
  | [], _, acc => acc
  | v :: rest, dayIndex, acc =>
      if expectedLength ≤ dayIndex then fillGo baseline expectedLength rest (dayIndex + 1) acc
      else
        fillGo baseline expectedLength rest (dayIndex + 1)
          (acc.set dayIndex (some (((v - baseline) / baseline) * 100)))

/-- The `yValues` array of one year's trace:
`new Array(expectedLength).fill(null)` overwritten with the percent
changes from the baseline. -/
def seasonalYValues (values : List ℚ) (baseline : ℚ) (expectedLength : Nat) :
    List (Option ℚ) :=
  fillGo baseline expectedLength values 0 (List.replicate expectedLength none)

/-- One year's extracted sub-period: the bars whose date satisfies the
selector, cut to `expectedLength` (`.slice(0, expectedLength)`).  The
calendar selectors (ISO week / month / quarter membership) enter as the
predicate `inPeriod` on the bar's date. -/
def subPeriod (data : List PriceData) (inPeriod : Nat → Bool) (expectedLength : Nat) :
    List PriceData :=
  (data.filter fun e => inPeriod e.date).take expectedLength

/-- One year's trace of the Time Explorer chart: `none` when the year is
skipped (empty sub-period, or baseline `0`; `null`/`undefined` baselines
cannot arise in the rational model), otherwise the `yValues` of the
plotted trace.  The baseline is the head of the prior data sorted by
descending date (`sortedPrior[0]`), falling back to the sub-period's own
first value. -/
def seasonalTrace (data : List PriceData) (inPeriod : Nat → Bool) (measure : PriceField)
    (expectedLength : Nat) : Option (List (Option ℚ)) :=
  let filtered := subPeriod data inPeriod expectedLength
  match filtered.head? with
  | none => none
  | some f0 =>
    let priorData := data.filter fun e => e.date < f0.date
    let baseline :=
      match (priorData.mergeSort fun a b => b.date ≤ a.date).head? with
      | none => f0.field measure
      | some p => p.field measure
    if baseline = 0 then none
    else some (seasonalYValues (filtered.map (·.field measure)) baseline expectedLength)

/-- The claim's description of the baseline, written from the spec's
words: the value of the last observation strictly before the sub-period's
first date (the last such element of the ascending year bucket), falling
back to the sub-period's own first value when no prior data exists. -/
def specBaseline (data : List PriceData) (inPeriod : Nat → Bool) (measure : PriceField)
    (expectedLength : Nat) : ℚ :=
  let filtered := subPeriod data inPeriod expectedLength
  let firstDate := (filtered.headD default).date
  match (data.filter fun e => e.date < firstDate).getLast? with
  | some p => p.field measure
  | none => (filtered.headD default).field measure

/-! ### IEEE special values for the NaN-propagation claim -/

/-- A JavaScript number as far as the NaN claim needs it: a finite
rational, a signed infinity, or NaN.  (Signed zero is irrelevant: the
inputs are exact rationals and the modelled expressions never divide by a
computed negative zero.) -/
inductive JSNum where
  | num (q : ℚ)
  | posInf
  | negInf
  | nan
deriving DecidableEq

/-- IEEE-754 division as JavaScript performs it on these values. -/
def JSNum.div : JSNum → JSNum → JSNum
  | num a, num b =>
      if b = 0 then (if a = 0 then nan else if a > 0 then posInf else negInf)
      else num (a / b)
  | num _, posInf => num 0
  | num _, negInf => num 0
  | posInf, num b => if b < 0 then negInf else posInf
  | negInf, num b => if b < 0 then posInf else negInf
  | posInf, posInf => nan
  | posInf, negInf => nan
  | negInf, posInf => nan
  | negInf, negInf => nan
  | nan, _ => nan
  | _, nan => nan

/-- IEEE-754 subtraction. -/
def JSNum.sub : JSNum → JSNum → JSNum
  | num a, num b => num (a - b)
  | num _, posInf => negInf
  | num _, negInf => posInf
  | posInf, num _ => posInf
  | negInf, num _ => negInf
  | posInf, posInf => nan
  | posInf, negInf => posInf
  | negInf, posInf => negInf
  | negInf, negInf => nan
  | nan, _ => nan
  | _, nan => nan

/-- IEEE-754 multiplication. -/
def JSNum.mul : JSNum → JSNum → JSNum
  | num a, num b => num (a * b)
  | num a, posInf => if a = 0 then nan else if a > 0 then posInf else negInf
  | num a, negInf => if a = 0 then nan else if a > 0 then negInf else posInf
  | posInf, num b => if b = 0 then nan else if b > 0 then posInf else negInf
  | negInf, num b => if b = 0 then nan else if b > 0 then negInf else posInf
  | posInf, posInf => posInf
  | posInf, negInf => negInf
  | negInf, posInf => negInf
  | negInf, negInf => posInf
  | nan, _ => nan
  | _, nan => nan

/-- `rocSeries` with JavaScript's special values:
`((closes[i] / closes[i - period]) - 1) * 100` evaluated in IEEE
arithmetic, so a zero price `period` steps back yields `NaN` (0/0) or an
infinity instead of a finite number. -/
def rocSeriesJS (closes : List ℚ) (period : Nat) : List (Option JSNum) :=
  (List.range closes.length).map fun i =>
    if i < period then none
    else some ((((JSNum.num (closes.getD i 0)).div
      (JSNum.num (closes.getD (i - period) 0))).sub (JSNum.num 1)).mul (JSNum.num 100))

/-- `calculateReturnsSeries` with JavaScript's special values:
`((current - prev) / prev) * 100` in IEEE arithmetic. -/
def calculateReturnsSeriesJS (priceData : List PriceData) (period : Nat)
    (priceField : PriceField) : List (Option JSNum) :=
  (List.range priceData.length).map fun i =>
    if i < period then none
    else
      let currentPrice := (priceData.getD i default).field priceField
      let prevPrice := (priceData.getD (i - period) default).field priceField
      some ((((JSNum.num currentPrice).sub (JSNum.num prevPrice)).div
        (JSNum.num prevPrice)).mul (JSNum.num 100))

/-! ### Summary statistics (Dashboard.tsx) -/

/-- The four forecast-model identifiers (`PROPHET_OPTIONS`). -/
inductive ProphetId where
  | timeSage | trendOracle | marketMind | quantumPredictor
deriving DecidableEq

/-- `latest[option.id]` forecast field lookup. -/
def PriceData.prophet (p : PriceData) : ProphetId → Option ℚ
  | .timeSage => p.timeSage
  | .trendOracle => p.trendOracle
  | .marketMind => p.marketMind
  | .quantumPredictor => p.quantumPredictor

/-- JavaScript `l.slice(-n)`: the trailing `n` elements (the whole list
when it is shorter). -/
def jsSliceLast {α : Type} (l : List α) (n : Nat) : List α :=
  l.drop (l.length - n)

/-- `percentChange` of Dashboard.tsx: `(to - from)/from`, with `0` as the
guard value when `from` is `0` (rationals are always finite, so the
`Number.isFinite` part of the guard is vacuous). -/
def percentChange (from_ to_ : ℚ) : ℚ :=
  if from_ = 0 then 0 else (to_ - from_) / from_

/-- `changeOverDays` of Dashboard.tsx: percent change from the close
`days` observations back (clamped to the first) to the latest close, `0`
on empty data. -/
def changeOverDays (data : List PriceData) (days : Nat) : ℚ :=
  match data with
  | [] => 0
  | _ =>
    let index := data.length - 1 - days
    percentChange ((data.getD index default).close) ((data.getLastD default).close)

/-- The `PriceStats` record of Dashboard.tsx. -/
structure PriceStats where
  latest : PriceData
  previous : Option PriceData
  changePct : ℚ
  weeklyChange : ℚ
  monthlyChange : ℚ
  quarterlyChange : ℚ
  ytdReturn : ℚ
  high52 : ℚ
  low52 : ℚ
  rangePlacement : ℚ
  avgVolume30 : ℚ
  volumeDelta : ℚ
  volumeLatest : ℚ
  intradayRange : ℚ
  annualizedVolatility : ℚ
  prophetDeltas : ProphetId → ℚ

/-- `computePriceStats` of Dashboard.tsx.  `Math.sqrt` enters as the
parameter `sqrtFn`; the calendar environment (`getFullYear`, the current
year) enters as `yearOf`/`currentYear`.  Empty data returns `null`;
otherwise every statistic degrades to a documented fallback constant
rather than failing. -/
def computePriceStats (sqrtFn : ℚ → ℚ) (yearOf : Nat → Int) (currentYear : Int)
    (data : List PriceData) : Option PriceStats :=
  match data with
  | [] => none
  | _ =>
    let latest := data.getLastD default
    let previous := if 1 < data.length then some (data.getD (data.length - 2) default) else none
    let lastYear := jsSliceLast data 365
    let highs := lastYear.map (·.high)
    let lows := lastYear.map (·.low)
    let high52 := if highs.isEmpty then latest.high else jsMaxSpread highs
    let low52 := if lows.isEmpty then latest.low else jsMinSpread lows
    let rangePlacement :=
      if high52 = low52 then 1 / 2
      else min (max ((latest.close - low52) / (high52 - low52)) 0) 1
    let recentVolumes := (jsSliceLast data 30).map fun entry => entry.volume.getD 0
    let avgVolume30 :=
      if recentVolumes.isEmpty then latest.volume.getD 0
      else recentVolumes.sum / recentVolumes.length
    let volumeLatest := latest.volume.getD 0
    let volumeDelta := if avgVolume30 = 0 then 0 else (volumeLatest - avgVolume30) / avgVolume30
    let returns : List ℚ := (List.range data.length).filterMap fun i =>
      if i = 0 then none
      else
        let prevClose := (data.getD (i - 1) default).close
        if prevClose = 0 then none
        else some (((data.getD i default).close - prevClose) / prevClose)
    let sample := jsSliceLast returns 60
    let mean := if sample.isEmpty then 0 else sample.sum / sample.length
    let variance :=
      if sample.isEmpty then 0
      else (sample.map fun v => ((v - mean) ^ 2 : ℚ)).sum / sample.length
    let annualizedVolatility := sqrtFn (max variance 0) * sqrtFn 252
    let startOfYear := data.find? fun entry => yearOf entry.date = currentYear
    let ytdReturn :=
      match startOfYear with
      | some s => percentChange s.close latest.close
      | none => percentChange (data.headD default).close latest.close
    let prophetDeltas : ProphetId → ℚ := fun id =>
      match latest.prophet id with
      | some v => if latest.close = 0 then 0 else (v - latest.close) / latest.close
      | none => 0
    some ⟨latest, previous,
      (match previous with
       | some p => percentChange p.close latest.close
       | none => 0),
      changeOverDays data 5, changeOverDays data 21, changeOverDays data 63,
      ytdReturn, high52, low52, rangePlacement, avgVolume30, volumeDelta,
      volumeLatest,
      (if latest.open_ = 0 then 0 else (latest.high - latest.low) / latest.open_),
      annualizedVolatility, prophetDeltas⟩

/-! ### Helper lemmas -/

theorem length_rangeMap {α : Type} (f : Nat → α) (n : Nat) :
    ((List.range n).map f).length = n := by
  simp

theorem getD_rangeMap {α : Type} (f : Nat → α) {n i : Nat} (h : i < n) (d : α) :
    ((List.range n).map f).getD i d = f i := by
  simp [List.getD_eq_getElem?_getD, List.getElem?_map, List.getElem?_range h]

theorem getD_rangeMap_ge {α : Type} (f : Nat → α) {n i : Nat} (h : n ≤ i) (d : α) :
    ((List.range n).map f).getD i d = d := by
  have : ((List.range n).map f).length ≤ i := by simpa using h
  simp [List.getD_eq_getElem?_getD, List.getElem?_eq_none this]

theorem jsSlice_length {α : Type} (l : List α) {start stop : Nat}
    (h1 : start ≤ stop) (h2 : stop ≤ l.length) :
    (jsSlice l start stop).length = stop - start := by
  simp [jsSlice]
  omega

theorem emaAux_length (closes : List ℚ) (period : Nat) (k : ℚ) (l : List ℚ) :
    ∀ (i : Nat) (p : Option ℚ), (emaAux closes period k l i p).length = l.length := by
  induction l with
  | nil => intro i p; rfl
  | cons c rest ih =>
    intro i p
    cases p with
    | none =>
      by_cases h : period ≤ i + 1 <;> simp [emaAux, h, ih]
    | some prev => simp [emaAux, ih]

theorem emaSeries_length (closes : List ℚ) (period : Nat) :
    (emaSeries closes period).length = closes.length := by
  simp [emaSeries, emaAux_length]

theorem obvGo_length (volumes : List ℚ) (l : List ℚ) :
    ∀ (i : Nat) (prev obv : ℚ), (obvGo volumes l i prev obv).length = l.length := by
  induction l with
  | nil => intro i prev obv; rfl
  | cons c rest ih => intro i prev obv; simp [obvGo, ih]

theorem obvSeries_length (closes volumes : List ℚ) :
    (obvSeries closes volumes).length = closes.length := by
  cases closes with
  | nil => rfl
  | cons c rest => simp [obvSeries, obvGo_length]

theorem fillGo_length (b : ℚ) (L : Nat) (values : List ℚ) :
    ∀ (i : Nat) (acc : List (Option ℚ)), (fillGo b L values i acc).length = acc.length := by
  induction values with
  | nil => intro i acc; rfl
  | cons v rest ih =>
    intro i acc
    by_cases h : L ≤ i <;> simp [fillGo, h, ih]

theorem seasonalYValues_length (values : List ℚ) (b : ℚ) (L : Nat) :
    (seasonalYValues values b L).length = L := by
  simp [seasonalYValues, fillGo_length]

theorem smaSeries_length (closes : List ℚ) (period : Nat) :
    (smaSeries closes period).length = closes.length := by
  simp [smaSeries]

theorem smaSeries_getD_of_lt (closes : List ℚ) (period : Nat) {i : Nat}
    (h : i + 1 < period) : (smaSeries closes period).getD i none = none := by
  rcases lt_or_ge i closes.length with hi | hi
  · rw [smaSeries, getD_rangeMap _ hi, if_pos h]
  · rw [smaSeries, getD_rangeMap_ge _ hi]

theorem smaSeries_getD_of_ge (closes : List ℚ) (period : Nat) {i : Nat}
    (h1 : ¬ i + 1 < period) (h2 : i < closes.length) :
    (smaSeries closes period).getD i none =
      some ((jsSlice closes (i + 1 - period) (i + 1)).sum / period) := by
  rw [smaSeries, getD_rangeMap _ h2, if_neg h1]

theorem emaAux_getD_none (closes : List ℚ) (period : Nat) (k : ℚ) (l : List ℚ) :
    ∀ (i j : Nat), i + j + 1 < period →
      (emaAux closes period k l i none).getD j none = none := by
  induction l with
  | nil => intro i j _; cases j <;> rfl
  | cons c rest ih =>
    intro i j h
    have hnot : ¬ period ≤ i + 1 := by omega
    rw [emaAux, if_neg hnot]
    cases j with
    | zero => rfl
    | succ j' =>
      have := ih (i + 1) j' (by omega)
      simpa [List.getD] using this

theorem emaAux_some_getD (closes : List ℚ) (period : Nat) (k : ℚ) (l : List ℚ) :
    ∀ (i : Nat) (prev : ℚ) (j : Nat), j < l.length →
      (emaAux closes period k l i (some prev)).getD j none =
        some (emaVal k prev (l.take (j + 1))) := by
  induction l with
  | nil => intro i prev j h; simp at h
  | cons c rest ih =>
    intro i prev j h
    rw [emaAux]
    cases j with
    | zero => simp [emaVal]
    | succ j' =>
      have := ih (i + 1) (c * k + prev * (1 - k)) j' (by simpa using Nat.lt_of_succ_lt_succ h)
      simpa [List.getD, emaVal, List.foldl_cons] using this

theorem emaAux_getD_main (closes : List ℚ) (period : Nat) (k : ℚ) :
    ∀ (l : List ℚ) (i : Nat), l = closes.drop i → i + 1 ≤ period →
      ∀ j, j < l.length →
        (emaAux closes period k l i none).getD j none =
          if i + j + 1 < period then none
          else some (emaVal k ((jsSlice closes 0 period).sum / period)
            (jsSlice closes period (i + j + 1))) := by
  intro l
  induction l with
  | nil => intro i _ _ j h; simp at h
  | cons c rest ih =>
    intro i hdrop hip j hj
    have hrest : rest = closes.drop (i + 1) := by
      have := congrArg List.tail hdrop
      simpa [List.tail_drop] using this
    by_cases hseed : period ≤ i + 1
    · -- seed step: i + 1 = period
      have hip' : i + 1 = period := le_antisymm hip hseed
      rw [emaAux, if_pos hseed]
      cases j with
      | zero =>
        have h1 : ¬ i + 0 + 1 < period := by omega
        rw [if_neg h1]
        have hslice0 : jsSlice closes (i + 1 - period) (i + 1) = jsSlice closes 0 period := by
          simp [hip']
        have hslice1 : jsSlice closes period (i + 0 + 1) = [] := by
          simp [jsSlice, hip', List.drop_take]
        simp [hslice0, hslice1, emaVal]
      | succ j' =>
        have hlen : j' < rest.length := by simpa using Nat.lt_of_succ_lt_succ hj
        have := emaAux_some_getD closes period k rest (i + 1)
          ((jsSlice closes (i + 1 - period) (i + 1)).sum / period) j' hlen
        have h1 : ¬ i + (j' + 1) + 1 < period := by omega
        rw [if_neg h1]
        have hslice0 : jsSlice closes (i + 1 - period) (i + 1) = jsSlice closes 0 period := by
          simp [hip']
        have htake : rest.take (j' + 1) = jsSlice closes period (i + (j' + 1) + 1) := by
          have harith : i + (j' + 1) + 1 = (i + 1) + (j' + 1) := by omega
          rw [hrest, jsSlice, harith, ← hip', List.take_drop]
        rw [List.getD_cons_succ, this, hslice0, htake]
    · -- still accumulating: output null and continue
      rw [emaAux, if_neg hseed]
      cases j with
      | zero =>
        rw [List.getD_cons_zero, if_pos (by omega : i + 0 + 1 < period)]
      | succ j' =>
        have hlen : j' < rest.length := by simpa using Nat.lt_of_succ_lt_succ hj
        have := ih (i + 1) hrest (by omega) j' hlen
        have harith : i + 1 + j' + 1 = i + (j' + 1) + 1 := by omega
        rw [harith] at this
        simpa [List.getD] using this

theorem emaSeries_getD (closes : List ℚ) (period : Nat) (hp : 1 ≤ period)
    {j : Nat} (hj : j < closes.length) :
    (emaSeries closes period).getD j none =
      if j + 1 < period then none
      else some (emaVal (2 / ((period : ℚ) + 1)) ((jsSlice closes 0 period).sum / period)
        (jsSlice closes period (j + 1))) := by
  have := emaAux_getD_main closes period (2 / ((period : ℚ) + 1)) closes 0 rfl
    (by omega) j hj
  simpa [emaSeries] using this

theorem emaSeries_getD_none (closes : List ℚ) (period : Nat) {j : Nat}
    (h : j + 1 < period) : (emaSeries closes period).getD j none = none := by
  rcases lt_or_ge j closes.length with hj | hj
  · have := emaAux_getD_none closes period (2 / ((period : ℚ) + 1)) closes 0 j (by omega)
    simpa [emaSeries] using this
  · have hlen : (emaSeries closes period).length ≤ j := by
      rw [emaSeries_length]; exact hj
    rw [List.getD_eq_getElem?_getD, List.getElem?_eq_none hlen]
    rfl

theorem getD_eq_none_of_ge {α : Type} (l : List (Option α)) {i : Nat}
    (h : l.length ≤ i) : l.getD i none = none := by
  rw [List.getD_eq_getElem?_getD, List.getElem?_eq_none h]
  rfl

theorem rsiSeries_length (closes : List ℚ) (period : Nat) :
    (rsiSeries closes period).length = closes.length := by
  simp [rsiSeries]

theorem rsiSeries_getD_none (closes : List ℚ) (period : Nat) {i : Nat}
    (h : i = 0 ∨ i < period) : (rsiSeries closes period).getD i none = none := by
  rcases lt_or_ge i closes.length with hi | hi
  · rw [rsiSeries, getD_rangeMap _ hi]
    rcases h with h | h
    · rw [if_pos h]
    · by_cases h0 : i = 0
      · rw [if_pos h0]
      · rw [if_neg h0, if_pos (by omega : i ≤ period), if_neg (by omega)]
  · rw [rsiSeries, getD_rangeMap_ge _ hi]

theorem rsiSeries_some_inv (closes : List ℚ) (period : Nat) {i : Nat} {v : ℚ}
    (h : (rsiSeries closes period).getD i none = some v) :
    i < closes.length ∧
      ((i = period ∧ v = rsiFrom (jsSlice closes 0 (period + 1)) period) ∨
       (period < i ∧ v = rsiFrom (jsSlice closes (i + 1 - period) (i + 1)) period)) := by
  have hi : i < closes.length := by
    by_contra hi
    rw [rsiSeries, getD_rangeMap_ge _ (le_of_not_lt hi)] at h
    exact Option.noConfusion h
  refine ⟨hi, ?_⟩
  rw [rsiSeries, getD_rangeMap _ hi] at h
  by_cases h0 : i = 0
  · rw [if_pos h0] at h; exact Option.noConfusion h
  rw [if_neg h0] at h
  by_cases hle : i ≤ period
  · rw [if_pos hle] at h
    by_cases heq : i = period
    · rw [if_pos heq] at h
      exact Or.inl ⟨heq, (Option.some_injective ℚ h).symm⟩
    · rw [if_neg heq] at h; exact Option.noConfusion h
  · rw [if_neg hle] at h
    exact Or.inr ⟨by omega, (Option.some_injective ℚ h).symm⟩

theorem gainSum_nonneg (l : List ℚ) : 0 ≤ gainSum l := by
  refine List.sum_nonneg ?_
  intro x hx
  rw [List.mem_map] at hx
  obtain ⟨c, _, rfl⟩ := hx
  exact le_max_left 0 c

theorem lossSum_nonneg (l : List ℚ) : 0 ≤ lossSum l := by
  refine List.sum_nonneg ?_
  intro x hx
  rw [List.mem_map] at hx
  obtain ⟨c, _, rfl⟩ := hx
  exact le_max_left 0 (-c)

theorem rsi_formula_bounds (rs : ℚ) (h : 0 ≤ rs) :
    0 ≤ 100 - 100 / (1 + rs) ∧ 100 - 100 / (1 + rs) ≤ 100 := by
  have h1 : (0 : ℚ) < 1 + rs := by linarith
  have h2 : 100 / (1 + rs) ≤ 100 := by
    rw [div_le_iff₀ h1]; nlinarith
  have h3 : (0 : ℚ) ≤ 100 / (1 + rs) := div_nonneg (by norm_num) (le_of_lt h1)
  constructor <;> linarith

theorem rsiFrom_bounds (w : List ℚ) (period : Nat) :
    0 ≤ rsiFrom w period ∧ rsiFrom w period ≤ 100 := by
  have hA : (0 : ℚ) ≤ gainSum w / period :=
    div_nonneg (gainSum_nonneg w) (by positivity)
  have hL : (0 : ℚ) ≤ lossSum w / period :=
    div_nonneg (lossSum_nonneg w) (by positivity)
  by_cases hz : lossSum w / (period : ℚ) = 0
  · have : rsiFrom w period = 100 - 100 / (1 + 100) := by
      rw [rsiFrom]
      simp [hz]
    rw [this]
    exact rsi_formula_bounds 100 (by norm_num)
  · have hLpos : (0 : ℚ) < lossSum w / period := lt_of_le_of_ne hL (Ne.symm hz)
    have hrs : (0 : ℚ) ≤ (gainSum w / period) / (lossSum w / period) :=
      div_nonneg hA (le_of_lt hLpos)
    have : rsiFrom w period =
        100 - 100 / (1 + (gainSum w / period) / (lossSum w / period)) := by
      rw [rsiFrom]
      simp [hz]
    rw [this]
    exact rsi_formula_bounds _ hrs

theorem rsiFrom_of_lossSum_zero (w : List ℚ) (period : Nat) (h : lossSum w = 0) :
    rsiFrom w period = 10000 / 101 := by
  rw [rsiFrom]
  simp [h]
  norm_num

theorem macdRaw_length (closes : List ℚ) (fast slow : Nat) :
    (macdRaw closes fast slow).length = closes.length := by
  simp [macdRaw]

theorem macdSeries_length (closes : List ℚ) (fast slow signal : Nat) :
    (macdSeries closes fast slow signal).length = closes.length := by
  simp [macdSeries, macdRaw_length]

theorem macdRaw_getD_none (closes : List ℚ) (fast slow : Nat) {i : Nat}
    (h : i + 1 < fast ∨ i + 1 < slow) :
    (macdRaw closes fast slow).getD i none = none := by
  rcases lt_or_ge i closes.length with hi | hi
  · rw [macdRaw, getD_rangeMap _ hi]
    rcases h with h | h
    · rw [emaSeries_getD_none closes fast h]
    · rw [emaSeries_getD_none closes slow h]
      rcases (emaSeries closes fast).getD i none with _ | f <;> rfl
  · rw [macdRaw, getD_rangeMap_ge _ hi]

theorem macdSeries_getD_none (closes : List ℚ) (fast slow signal : Nat) {i : Nat}
    (h : i + 1 < max (max fast slow) signal) :
    (macdSeries closes fast slow signal).getD i none = none := by
  rcases lt_or_ge i closes.length with hi | hi
  · have hi' : i < (macdRaw closes fast slow).length := by rw [macdRaw_length]; exact hi
    rw [macdSeries]
    rw [getD_rangeMap _ hi']
    by_cases hfs : i + 1 < fast ∨ i + 1 < slow
    · rw [macdRaw_getD_none closes fast slow hfs]
    · have hsig : i + 1 < signal := by omega
      rw [macdSignal, emaSeries_getD_none _ signal hsig]
      rcases (macdRaw closes fast slow).getD i none with _ | v <;> rfl
  · have : (macdSeries closes fast slow signal).length ≤ i := by
      rw [macdSeries_length]; exact hi
    exact getD_eq_none_of_ge _ this

theorem trueRanges_length (highs lows closes : List ℚ) :
    (trueRanges highs lows closes).length = highs.length := by
  simp [trueRanges]

theorem atrSeries_length (highs lows closes : List ℚ) (period : Nat) :
    (atrSeries highs lows closes period).length = highs.length := by
  simp [atrSeries, trueRanges_length]

theorem atrSeries_getD_none (highs lows closes : List ℚ) (period : Nat) {i : Nat}
    (h : i + 1 < period) : (atrSeries highs lows closes period).getD i none = none := by
  rcases lt_or_ge i (trueRanges highs lows closes).length with hi | hi
  · rw [atrSeries, getD_rangeMap _ hi, if_pos h]
  · rw [atrSeries, getD_rangeMap_ge _ hi]

theorem stochasticK_length (highs lows closes : List ℚ) (kPeriod : Nat) :
    (stochasticK highs lows closes kPeriod).length = closes.length := by
  simp [stochasticK]

theorem stochasticK_getD_none (highs lows closes : List ℚ) (kPeriod : Nat) {i : Nat}
    (h : i + 1 < kPeriod) :
    (stochasticK highs lows closes kPeriod).getD i none = none := by
  rcases lt_or_ge i closes.length with hi | hi
  · rw [stochasticK, getD_rangeMap _ hi, if_pos h]
  · rw [stochasticK, getD_rangeMap_ge _ hi]

theorem stochasticSeries_k_length (highs lows closes : List ℚ) (kPeriod dPeriod : Nat) :
    (stochasticSeries highs lows closes kPeriod dPeriod).1.length = closes.length := by
  simp [stochasticSeries, stochasticK_length]

theorem stochasticSeries_d_length (highs lows closes : List ℚ) (kPeriod dPeriod : Nat) :
    (stochasticSeries highs lows closes kPeriod dPeriod).2.length = closes.length := by
  simp [stochasticSeries, stochasticK_length]

theorem stochasticSeries_d_getD_none (highs lows closes : List ℚ) (kPeriod dPeriod : Nat)
    {i : Nat} (h : i + 1 < kPeriod + dPeriod - 1) :
    (stochasticSeries highs lows closes kPeriod dPeriod).2.getD i none = none := by
  rcases lt_or_ge i (stochasticK highs lows closes kPeriod).length with hi | hi
  · rw [stochasticSeries]
    rw [getD_rangeMap _ hi, if_pos h]
  · rw [stochasticSeries]
    rw [getD_rangeMap_ge _ hi]

theorem bollingerSeries_middle (sqrtFn : ℚ → ℚ) (closes : List ℚ) (period : Nat) (mult : ℚ) :
    (bollingerSeries sqrtFn closes period mult).middle = smaSeries closes period := rfl

theorem bollingerSeries_upper_length (sqrtFn : ℚ → ℚ) (closes : List ℚ) (period : Nat)
    (mult : ℚ) : (bollingerSeries sqrtFn closes period mult).upper.length = closes.length := by
  simp [bollingerSeries]

theorem bollingerSeries_lower_length (sqrtFn : ℚ → ℚ) (closes : List ℚ) (period : Nat)
    (mult : ℚ) : (bollingerSeries sqrtFn closes period mult).lower.length = closes.length := by
  simp [bollingerSeries]

theorem bollingerSeries_upper_getD (sqrtFn : ℚ → ℚ) (closes : List ℚ) (period : Nat)
    (mult : ℚ) {i : Nat} (hi : i < closes.length) :
    (bollingerSeries sqrtFn closes period mult).upper.getD i none =
      if i + 1 < period then none
      else some (windowMean (jsSlice closes (i + 1 - period) (i + 1)) period +
        mult * sqrtFn (windowVar (jsSlice closes (i + 1 - period) (i + 1)) period)) := by
  rw [bollingerSeries]
  rw [List.getD_eq_getElem?_getD, List.getElem?_map, List.getElem?_map,
    List.getElem?_range hi]
  by_cases h : i + 1 < period <;> simp [h]

theorem bollingerSeries_lower_getD (sqrtFn : ℚ → ℚ) (closes : List ℚ) (period : Nat)
    (mult : ℚ) {i : Nat} (hi : i < closes.length) :
    (bollingerSeries sqrtFn closes period mult).lower.getD i none =
      if i + 1 < period then none
      else some (windowMean (jsSlice closes (i + 1 - period) (i + 1)) period -
        mult * sqrtFn (windowVar (jsSlice closes (i + 1 - period) (i + 1)) period)) := by
  rw [bollingerSeries]
  rw [List.getD_eq_getElem?_getD, List.getElem?_map, List.getElem?_map,
    List.getElem?_range hi]
  by_cases h : i + 1 < period <;> simp [h]

theorem windowVar_nonneg (w : List ℚ) (period : Nat) : 0 ≤ windowVar w period := by
  refine div_nonneg (List.sum_nonneg ?_) (by positivity)
  intro x hx
  rw [List.mem_map] at hx
  obtain ⟨v, _, rfl⟩ := hx
  positivity

theorem rocSeries_length (closes : List ℚ) (period : Nat) :
    (rocSeries closes period).length = closes.length := by
  simp [rocSeries]

theorem rocSeries_getD_none (closes : List ℚ) (period : Nat) {i : Nat}
    (h : i < period) : (rocSeries closes period).getD i none = none := by
  rcases lt_or_ge i closes.length with hi | hi
  · rw [rocSeries, getD_rangeMap _ hi, if_pos h]
  · rw [rocSeries, getD_rangeMap_ge _ hi]

theorem calculateReturnsSeries_length (priceData : List PriceData) (period : Nat)
    (priceField : PriceField) :
    (calculateReturnsSeries priceData period priceField).length = priceData.length := by
  simp [calculateReturnsSeries]

theorem calculateReturnsSeries_getD_none (priceData : List PriceData) (period : Nat)
    (priceField : PriceField) {i : Nat} (h : i < period) :
    (calculateReturnsSeries priceData period priceField).getD i none = none := by
  rcases lt_or_ge i priceData.length with hi | hi
  · rw [calculateReturnsSeries, getD_rangeMap _ hi, if_pos h]
  · rw [calculateReturnsSeries, getD_rangeMap_ge _ hi]

theorem rocSeriesJS_length (closes : List ℚ) (period : Nat) :
    (rocSeriesJS closes period).length = closes.length := by
  simp [rocSeriesJS]

theorem calculateReturnsSeriesJS_length (priceData : List PriceData) (period : Nat)
    (priceField : PriceField) :
    (calculateReturnsSeriesJS priceData period priceField).length = priceData.length := by
  simp [calculateReturnsSeriesJS]

theorem dedup_of_all_eq {α : Type} [DecidableEq α] (m : α) :
    ∀ (l : List α), l ≠ [] → (∀ x ∈ l, x = m) → l.dedup = [m] := by
  intro l
  induction l with
  | nil => intro h _; exact absurd rfl h
  | cons a rest ih =>
    intro _ hall
    have ha : a = m := hall a (List.mem_cons_self a rest)
    cases rest with
    | nil => simp [ha]
    | cons b rest' =>
      have hb : b = m := hall b (by simp)
      have hmem : a ∈ b :: rest' := by rw [ha, ← hb]; exact List.mem_cons_self b rest'
      rw [List.dedup_cons_of_mem hmem]
      exact ih (by simp) fun x hx => hall x (List.mem_cons_of_mem a hx)

theorem foldl_max_withBot (l : List ℚ) :
    ∀ (acc : WithBot ℚ), l.foldl (fun (s : WithBot ℚ) (v : ℚ) => max s ↑v) acc = max acc l.maximum := by
  induction l with
  | nil => intro acc; simp [List.maximum_nil]
  | cons a rest ih =>
    intro acc
    rw [List.foldl_cons, ih, List.maximum_cons]
    rw [max_assoc]

theorem jsMaxFold_eq_maximum (l : List ℚ) : jsMaxFold l = l.maximum := by
  rw [jsMaxFold, foldl_max_withBot]
  simp

theorem foldl_min_withTop (l : List ℚ) :
    ∀ (acc : WithTop ℚ), l.foldl (fun (s : WithTop ℚ) (v : ℚ) => min s ↑v) acc = min acc l.minimum := by
  induction l with
  | nil => intro acc; simp [List.minimum_nil]
  | cons a rest ih =>
    intro acc
    rw [List.foldl_cons, ih, List.minimum_cons]
    rw [min_assoc]

theorem jsMinFold_eq_minimum (l : List ℚ) : jsMinFold l = l.minimum := by
  rw [jsMinFold, foldl_min_withTop]
  simp

theorem foldl_add_map {α : Type} (f : α → ℚ) (l : List α) :
    ∀ (acc : ℚ), l.foldl (fun s r => s + f r) acc = acc + (l.map f).sum := by
  induction l with
  | nil => intro acc; simp
  | cons a rest ih =>
    intro acc
    rw [List.foldl_cons, ih, List.map_cons, List.sum_cons]
    ring

theorem headD_of_ne_nil {α : Type} [Inhabited α] (l : List α) (h : l ≠ []) :
    l.headD default = l.head h := by
  cases l with
  | nil => exact absurd rfl h
  | cons a rest => rfl

theorem getLastD_of_ne_nil {α : Type} [Inhabited α] (l : List α) (h : l ≠ []) :
    l.getLastD default = l.getLast h := by
  rw [List.getLastD_eq_getLast?, List.getLast?_eq_getLast l h]
  rfl

/-- Head of the descending-by-date sort is the last element of an
ascending list with pairwise-distinct dates (the `sortedPrior[0]` of the
Time Explorer picks the most recent prior bar). -/
theorem mergeSort_desc_head (l : List PriceData)
    (h : l.Pairwise fun a b => a.date < b.date) :
    (l.mergeSort fun a b => decide (b.date ≤ a.date)).head? = l.getLast? := by
  cases hl : l with
  | nil => simp
  | cons a0 rest =>
    rw [← hl]
    have hlne : l ≠ [] := by rw [hl]; exact List.cons_ne_nil a0 rest
    have hperm := List.mergeSort_perm l (fun a b => decide (b.date ≤ a.date))
    have hsorted := @List.sorted_mergeSort PriceData
      (fun a b : PriceData => decide (b.date ≤ a.date))
      (fun a b c hab hbc => by
        simp only [decide_eq_true_eq] at hab hbc ⊢
        exact le_trans hbc hab)
      (fun a b => by
        simp only [Bool.or_eq_true, decide_eq_true_eq]
        exact le_total b.date a.date)
      l
    have hsne : l.mergeSort (fun a b => decide (b.date ≤ a.date)) ≠ [] := by
      intro hnil
      have := hperm.length_eq
      rw [hnil, hl] at this
      simp at this
    obtain ⟨x, t, hxt⟩ := List.exists_cons_of_ne_nil hsne
    have hxmax : ∀ y ∈ l, y.date ≤ x.date := by
      intro y hy
      have hy' : y ∈ x :: t := by
        rw [← hxt]
        exact (hperm.mem_iff).mpr hy
      rcases List.mem_cons.mp hy' with rfl | hy''
      · exact le_refl _
      · have := hsorted
        rw [hxt] at this
        have := List.rel_of_sorted_cons this y hy''
        simpa using this
    have hlast_mem : l.getLast hlne ∈ l := List.getLast_mem hlne
    have hx_mem : x ∈ l := by
      have : x ∈ x :: t := List.mem_cons_self x t
      rw [← hxt] at this
      exact (hperm.mem_iff).mp this
    have hx_eq : x = l.getLast hlne := by
      have hsplit := List.dropLast_append_getLast hlne
      have hx_mem' : x ∈ l.dropLast ++ [l.getLast hlne] := by rw [hsplit]; exact hx_mem
      rcases List.mem_append.mp hx_mem' with hxd | hxl
      · -- x strictly before the last element: contradicts maximality of x
        have hpw : l.Pairwise (fun a b => a.date < b.date) := h
        rw [← hsplit] at hpw
        have := (List.pairwise_append.mp hpw).2.2 x hxd (l.getLast hlne) (by simp)
        have hle := hxmax (l.getLast hlne) hlast_mem
        omega
      · simpa using hxl
    rw [hxt, List.head?_cons, hx_eq, List.getLast?_eq_getLast l hlne]

theorem getD_replicate_none {α : Type} (L j : Nat) :
    (List.replicate L (none : Option α)).getD j none = none := by
  rcases lt_or_ge j L with hj | hj
  · rw [List.getD_eq_getElem?_getD]
    rw [List.getElem?_eq_getElem (by simpa using hj)]
    simp [List.getElem_replicate]
  · rw [List.getD_eq_getElem?_getD, List.getElem?_eq_none (by simpa using hj)]
    rfl

theorem fillGo_getD (b : ℚ) (L : Nat) :
    ∀ (values : List ℚ) (i : Nat) (acc : List (Option ℚ)) (j : Nat), acc.length = L →
      (fillGo b L values i acc).getD j none =
        if i ≤ j ∧ j < i + values.length ∧ j < L
        then some ((values.getD (j - i) 0 - b) / b * 100)
        else acc.getD j none := by
  intro values
  induction values with
  | nil =>
    intro i acc j hlen
    rw [fillGo, if_neg (by simp only [List.length_nil]; omega)]
  | cons v rest ih =>
    intro i acc j hlen
    rw [fillGo]
    by_cases hLi : L ≤ i
    · rw [if_pos hLi, ih (i + 1) acc j hlen]
      by_cases hc : i + 1 ≤ j ∧ j < i + 1 + rest.length ∧ j < L
      · omega
      · rw [if_neg hc, if_neg (by simp; omega)]
    · rw [if_neg hLi]
      rw [ih (i + 1) (acc.set i (some ((v - b) / b * 100))) j (by rw [List.length_set]; exact hlen)]
      by_cases hc : i + 1 ≤ j ∧ j < i + 1 + rest.length ∧ j < L
      · rw [if_pos hc, if_pos (by simp; omega)]
        have : (v :: rest).getD (j - i) 0 = rest.getD (j - (i + 1)) 0 := by
          have hji : j - i = (j - (i + 1)) + 1 := by omega
          rw [hji, List.getD_cons_succ]
        rw [this]
      · rw [if_neg hc]
        by_cases hji : j = i
        · subst hji
          have hjL : j < L := by omega
          rw [List.getD_eq_getElem?_getD, List.getElem?_set, if_pos rfl,
            if_pos (by rw [hlen]; exact hjL)]
          rw [if_pos (by simp; omega)]
          simp
        · rw [List.getD_eq_getElem?_getD, List.getElem?_set, if_neg (fun hh => hji hh.symm),
            if_neg (by simp; omega), ← List.getD_eq_getElem?_getD]

theorem jsSlice_snoc (l : List ℚ) {a b : Nat} (hab : a ≤ b) (hb : b < l.length) :
    jsSlice l a (b + 1) = jsSlice l a b ++ [l.getD b 0] := by
  rw [jsSlice, jsSlice, List.take_succ, List.getElem?_eq_getElem hb]
  rw [List.drop_append_eq_append_drop]
  have hlen : (l.take b).length = b := by
    rw [List.length_take]
    omega
  rw [hlen]
  have : a - b = 0 := by omega
  rw [this, List.drop_zero, List.getD_eq_getElem l 0 hb]
  rfl

theorem emaVal_append_singleton (k s c : ℚ) (w : List ℚ) :
    emaVal k s (w ++ [c]) = c * k + emaVal k s w * (1 - k) := by
  rw [emaVal, List.foldl_append]
  rfl

theorem jsSlice_same (l : List ℚ) (a : Nat) : jsSlice l a a = [] := by
  rw [jsSlice, List.drop_eq_nil_iff]
  rw [List.length_take]
  omega

/-! ### Claims -/

/-- C2 (amended): at every index where `rsiSeries` produces a non-null
value and the average loss over the trailing window is 0, the produced RSI
value equals `100 - 100/101 = 10000/101 ≈ 99.0099` — not `100`, because
the code substitutes `RS = 100` (a finite cap) when `avgLoss === 0` and
then computes `100 - 100/(1+RS)`. -/
theorem rsi_zero_avgLoss_value (closes : List ℚ) (period : Nat) (hp : 1 ≤ period)
    {i : Nat} {v : ℚ} (hv : (rsiSeries closes period).getD i none = some v)
    (hz : rsiAvgLoss closes period i = 0) : v = 10000 / 101 := by
  have hper : ((period : ℚ)) ≠ 0 := Nat.cast_ne_zero.mpr (by omega)
  obtain ⟨-, hcase⟩ := rsiSeries_some_inv closes period hv
  rcases hcase with ⟨heq, rfl⟩ | ⟨hgt, rfl⟩
  · rw [rsiAvgLoss, if_pos heq] at hz
    rcases div_eq_zero_iff.mp hz with hz' | hz'
    · exact rsiFrom_of_lossSum_zero _ _ hz'
    · exact absurd hz' hper
  · rw [rsiAvgLoss, if_neg (by omega)] at hz
    rcases div_eq_zero_iff.mp hz with hz' | hz'
    · exact rsiFrom_of_lossSum_zero _ _ hz'
    · exact absurd hz' hper

/-- C2 (counterexample to the claim as stated): on `closes = [1, 2]` with
`period = 1` the average loss at the computed index 1 is 0, yet the RSI
value produced by the code is `10000/101`, which is not `100`. -/
theorem rsi_zero_avgLoss_not_100 :
    (rsiSeries [1, 2] 1).getD 1 none = some (10000 / 101) ∧
    rsiAvgLoss [1, 2] 1 1 = 0 ∧ (10000 / 101 : ℚ) ≠ 100 := by
  refine ⟨?_, ?_, by norm_num⟩
  · rw [show rsiSeries [1, 2] 1 = [none, some (10000 / 101)] from by
      norm_num [rsiSeries, rsiFrom, jsSlice, gainSum, lossSum, deltas, List.range_succ]]
    rfl
  · rw [rsiAvgLoss, if_pos rfl]
    norm_num [jsSlice, lossSum, deltas]

/-- C2 (witness for the amended theorem at a concrete input). -/
theorem rsi_zero_avgLoss_value_witness : (10000 / 101 : ℚ) = 10000 / 101 :=
  @rsi_zero_avgLoss_value [1, 2] 1 (by norm_num) 1 (10000 / 101)
    (by rw [show rsiSeries [1, 2] 1 = [none, some (10000 / 101)] from by
        norm_num [rsiSeries, rsiFrom, jsSlice, gainSum, lossSum, deltas, List.range_succ]]
        rfl)
    (by rw [rsiAvgLoss, if_pos rfl]; norm_num [jsSlice, lossSum, deltas])

/-- C9: for every closes array and period ≥ 1, every non-null element of
`rsiSeries` lies in `[0, 100]`. -/
theorem rsi_bounded (closes : List ℚ) (period : Nat) (_hp : 1 ≤ period)
    {i : Nat} {v : ℚ} (hv : (rsiSeries closes period).getD i none = some v) :
    0 ≤ v ∧ v ≤ 100 := by
  obtain ⟨-, hcase⟩ := rsiSeries_some_inv closes period hv
  rcases hcase with ⟨-, rfl⟩ | ⟨-, rfl⟩ <;> exact rsiFrom_bounds _ _

/-- C9 (witness at a concrete input). -/
theorem rsi_bounded_witness : 0 ≤ (10000 / 101 : ℚ) ∧ (10000 / 101 : ℚ) ≤ 100 :=
  @rsi_bounded [1, 2] 1 (by norm_num) 1 (10000 / 101)
    (by rw [show rsiSeries [1, 2] 1 = [none, some (10000 / 101)] from by
        norm_num [rsiSeries, rsiFrom, jsSlice, gainSum, lossSum, deltas, List.range_succ]]
        rfl)

/-- C3 (code bug): on an input with zero prices the code DOES place `NaN`
in the output: `rocSeries([0,0], 1)` computes `0/0 = NaN` in IEEE
arithmetic at index 1, and `calculateReturnsSeries` on two bars whose
close is `0` computes `(0-0)/0 = NaN` at index 1, contradicting the
spec's rule that outputs are only `null` or well-defined numbers. -/
theorem roc_returns_nan_at_zero_prices :
    rocSeriesJS [0, 0] 1 = [none, some JSNum.nan] ∧
    calculateReturnsSeriesJS [bar 0 0, bar 1 0] 1 PriceField.close =
      [none, some JSNum.nan] := by
  constructor
  · norm_num [rocSeriesJS, List.range_succ, JSNum.div, JSNum.sub, JSNum.mul]
  · norm_num [calculateReturnsSeriesJS, bar, PriceData.field, List.range_succ,
      JSNum.div, JSNum.sub, JSNum.mul]

/-- C4: `smaSeries(closes, p)[i]` is null for `i < p-1` and for `i ≥ p-1`
equals the plain unweighted arithmetic mean (sum divided by window length)
of the window `closes[i-p+1 .. i]`, which has exactly `p` elements. -/
theorem sma_mean_correct (closes : List ℚ) (period : Nat) (hp : 1 ≤ period) (i : Nat)
    (hi : i < closes.length) :
    (i < period - 1 → (smaSeries closes period).getD i none = none) ∧
    (period - 1 ≤ i →
      ((closes.drop (i + 1 - period)).take period).length = period ∧
      (smaSeries closes period).getD i none =
        some (((closes.drop (i + 1 - period)).take period).sum /
          (((closes.drop (i + 1 - period)).take period).length : ℚ))) := by
  constructor
  · intro h
    exact smaSeries_getD_of_lt closes period (by omega)
  · intro h
    have hwin : ((closes.drop (i + 1 - period)).take period).length = period := by
      rw [List.length_take, List.length_drop]
      omega
    refine ⟨hwin, ?_⟩
    rw [smaSeries_getD_of_ge closes period (by omega) hi]
    have hslice : jsSlice closes (i + 1 - period) (i + 1) =
        (closes.drop (i + 1 - period)).take period := by
      have harith : i + 1 - period + period = i + 1 := by omega
      rw [jsSlice, List.take_drop, harith]
    rw [hslice, hwin]

/-- C4 (witness at a concrete input). -/
theorem sma_mean_correct_witness :
    ((smaSeries [10, 11, 12] 2).getD 0 none = none) ∧
    ((([10, 11, 12] : List ℚ).drop 0).take 2).length = 2 := by
  refine ⟨(sma_mean_correct [10, 11, 12] 2 (by norm_num) 0 (by norm_num)).1 (by norm_num), ?_⟩
  exact ((sma_mean_correct [10, 11, 12] 2 (by norm_num) 1 (by norm_num)).2 (by norm_num)).1

/-- C5: `emaSeries(closes, period)` is null at every index `i` with
`i+1 < period`, equals the simple mean of the first `period` closes at the
seed index `i = period-1`, and at every later index satisfies
`ema[i] = close[i]*k + ema[i-1]*(1-k)` with `k = 2/(period+1)`. -/
theorem ema_seed_and_recurrence (closes : List ℚ) (period : Nat) (hp : 1 ≤ period) :
    (∀ i, i + 1 < period → (emaSeries closes period).getD i none = none) ∧
    (period ≤ closes.length →
      (closes.take period).length = period ∧
      (emaSeries closes period).getD (period - 1) none =
        some ((closes.take period).sum / period)) ∧
    (∀ i, period ≤ i → i < closes.length → ∀ v,
      (emaSeries closes period).getD (i - 1) none = some v →
      (emaSeries closes period).getD i none =
        some (closes.getD i 0 * (2 / ((period : ℚ) + 1)) +
          v * (1 - 2 / ((period : ℚ) + 1)))) := by
  refine ⟨fun i h => emaSeries_getD_none closes period h, ?_, ?_⟩
  · intro hlen
    constructor
    · rw [List.length_take]
      omega
    · have hj : period - 1 < closes.length := by omega
      rw [emaSeries_getD closes period hp hj, if_neg (by omega)]
      have h1 : period - 1 + 1 = period := by omega
      rw [h1, jsSlice_same]
      have h0 : jsSlice closes 0 period = closes.take period := by
        rw [jsSlice, List.drop_zero]
      rw [h0]
      rfl
  · intro i hpi hin v hv
    have h1 : i - 1 < closes.length := by omega
    rw [emaSeries_getD closes period hp h1, if_neg (by omega)] at hv
    have hv' := Option.some_injective ℚ hv
    rw [emaSeries_getD closes period hp hin, if_neg (by omega)]
    have harith : i - 1 + 1 = i := by omega
    rw [harith] at hv'
    have hsnoc : jsSlice closes period (i + 1) =
        jsSlice closes period i ++ [closes.getD i 0] :=
      jsSlice_snoc closes hpi hin
    rw [hsnoc, emaVal_append_singleton, ← hv']

/-- C5 (witness at a concrete input). -/
theorem ema_seed_and_recurrence_witness :
    (emaSeries [1, 2, 3] 2).getD 0 none = none ∧
    (([1, 2, 3] : List ℚ).take 2).length = 2 ∧
    (emaSeries [1, 2, 3] 2).getD 1 none = some ((([1, 2, 3] : List ℚ).take 2).sum / 2) ∧
    (emaSeries [1, 2, 3] 2).getD 2 none =
      some (([1, 2, 3] : List ℚ).getD 2 0 * (2 / ((2 : ℚ) + 1)) +
        (3 / 2) * (1 - 2 / ((2 : ℚ) + 1))) := by
  obtain ⟨hnull, hseed, hrec⟩ := ema_seed_and_recurrence [1, 2, 3] 2 (by norm_num)
  refine ⟨hnull 0 (by norm_num), (hseed (by norm_num)).1, (hseed (by norm_num)).2, ?_⟩
  refine hrec 2 (by norm_num) (by norm_num) (3 / 2) ?_
  rw [show emaSeries [1, 2, 3] 2 = [none, some (3 / 2), some (5 / 2)] from by
    norm_num [emaSeries, emaAux, jsSlice]]
  rfl

/-- C10: the three arrays of `bollingerSeries` are null at exactly the
indices `i` with `i+1 < period`; wherever non-null,
`upper - middle = middle - lower = mult · sd` where `sd` is the square
root of the population variance of the trailing window, and
`lower ≤ middle ≤ upper` (for any nonnegative square-root model, any
`period ≥ 1` and any `mult ≥ 0`). -/
theorem bollinger_band_relations (sqrtFn : ℚ → ℚ)
    (hs : ∀ q, 0 ≤ q → 0 ≤ sqrtFn q) (closes : List ℚ) (period : Nat)
    (_hp : 1 ≤ period) (mult : ℚ) (hm : 0 ≤ mult) (i : Nat) (hi : i < closes.length) :
    (((bollingerSeries sqrtFn closes period mult).middle.getD i none = none ↔
        i + 1 < period) ∧
     ((bollingerSeries sqrtFn closes period mult).upper.getD i none = none ↔
        i + 1 < period) ∧
     ((bollingerSeries sqrtFn closes period mult).lower.getD i none = none ↔
        i + 1 < period)) ∧
    (∀ m u l,
      (bollingerSeries sqrtFn closes period mult).middle.getD i none = some m →
      (bollingerSeries sqrtFn closes period mult).upper.getD i none = some u →
      (bollingerSeries sqrtFn closes period mult).lower.getD i none = some l →
      u - m = mult * sqrtFn (windowVar (jsSlice closes (i + 1 - period) (i + 1)) period) ∧
      m - l = mult * sqrtFn (windowVar (jsSlice closes (i + 1 - period) (i + 1)) period) ∧
      l ≤ m ∧ m ≤ u) := by
  have hmid : (bollingerSeries sqrtFn closes period mult).middle = smaSeries closes period :=
    bollingerSeries_middle sqrtFn closes period mult
  have hup := bollingerSeries_upper_getD sqrtFn closes period mult hi
  have hlo := bollingerSeries_lower_getD sqrtFn closes period mult hi
  constructor
  · refine ⟨?_, ?_, ?_⟩
    · rw [hmid]
      constructor
      · intro h
        by_contra hcon
        rw [smaSeries_getD_of_ge closes period hcon hi] at h
        exact Option.noConfusion h
      · intro h
        exact smaSeries_getD_of_lt closes period h
    · rw [hup]
      by_cases h : i + 1 < period <;> simp [h]
    · rw [hlo]
      by_cases h : i + 1 < period <;> simp [h]
  · intro m u l hm' hu' hl'
    by_cases h : i + 1 < period
    · rw [hup, if_pos h] at hu'
      exact absurd hu' Option.noConfusion
    · rw [hmid, smaSeries_getD_of_ge closes period h hi] at hm'
      rw [hup, if_neg h] at hu'
      rw [hlo, if_neg h] at hl'
      have hm2 := Option.some_injective ℚ hm'
      have hu2 := Option.some_injective ℚ hu'
      have hl2 := Option.some_injective ℚ hl'
      have hmean : m = windowMean (jsSlice closes (i + 1 - period) (i + 1)) period := by
        rw [← hm2, windowMean]
      have hsd : 0 ≤ mult * sqrtFn (windowVar (jsSlice closes (i + 1 - period) (i + 1)) period) :=
        mul_nonneg hm (hs _ (windowVar_nonneg _ _))
      subst hmean
      constructor
      · rw [← hu2]; ring
      constructor
      · rw [← hl2]; ring
      constructor
      · rw [← hl2]; linarith
      · rw [← hu2]; linarith

/-- C10 (witness at a concrete input). -/
theorem bollinger_band_relations_witness :
    (2 : ℚ) - 2 = 0 * id (windowVar (jsSlice [1, 2] (1 + 1 - 1) (1 + 1)) 1) ∧
    (2 : ℚ) - 2 = 0 * id (windowVar (jsSlice [1, 2] (1 + 1 - 1) (1 + 1)) 1) ∧
    (2 : ℚ) ≤ 2 ∧ (2 : ℚ) ≤ 2 := by
  refine (bollinger_band_relations id (fun q h => h) [1, 2] 1 (by norm_num) 0
    (by norm_num) 1 (by norm_num)).2 2 2 2 ?_ ?_ ?_
  · rw [show (bollingerSeries id [1, 2] 1 0).middle = [some 1, some 2] from by
      norm_num [bollingerSeries, smaSeries, jsSlice, List.range_succ]]
    rfl
  · rw [show (bollingerSeries id [1, 2] 1 0).upper = [some 1, some 2] from by
      norm_num [bollingerSeries, smaSeries, jsSlice, List.range_succ, windowMean, windowVar]]
    rfl
  · rw [show (bollingerSeries id [1, 2] 1 0).lower = [some 1, some 2] from by
      norm_num [bollingerSeries, smaSeries, jsSlice, List.range_succ, windowMean, windowVar]]
    rfl

theorem downsampleToWeekly_cons (p : PriceData) (ps : List PriceData) :
    downsampleToWeekly (p :: ps) =
      ((((p :: ps).map fun q => mondayOf q.date).dedup).mergeSort (· ≤ ·)).map fun k =>
        let arr := (p :: ps).filter fun q => mondayOf q.date = k
        ⟨k, (arr.headD default).open_, (arr.getLastD default).close,
          jsMaxFold (arr.map (·.high)), jsMinFold (arr.map (·.low)),
          arr.foldl (fun s r => s + r.volume.getD 0) 0⟩ := rfl

/-- C6: a nonempty ascending bar sequence lying in one Monday-start week
downsamples to exactly one weekly bar whose open/close are the first/last
bars' open/close, whose high/low are the maximum/minimum over the week and
whose volume is the sum of the volumes; the empty input gives the empty
output. -/
theorem downsample_single_week (prices : List PriceData) (hne : prices ≠ [])
    (_hasc : prices.Pairwise fun a b => a.date ≤ b.date)
    (hweek : ∀ p ∈ prices, mondayOf p.date = mondayOf ((prices.head hne).date)) :
    downsampleToWeekly prices =
      [⟨mondayOf ((prices.head hne).date), (prices.head hne).open_,
        (prices.getLast hne).close, (prices.map (·.high)).maximum,
        (prices.map (·.low)).minimum,
        (prices.map fun r => r.volume.getD 0).sum⟩] ∧
    downsampleToWeekly [] = [] := by
  refine ⟨?_, rfl⟩
  obtain ⟨p, ps, rfl⟩ := List.exists_cons_of_ne_nil hne
  rw [downsampleToWeekly_cons]
  have hmapne : ((p :: ps).map fun q => mondayOf q.date) ≠ [] := by simp
  have hmap : ∀ x ∈ (p :: ps).map fun q => mondayOf q.date,
      x = mondayOf (((p :: ps).head hne).date) := by
    intro x hx
    rw [List.mem_map] at hx
    obtain ⟨q, hq, rfl⟩ := hx
    exact hweek q hq
  rw [dedup_of_all_eq _ _ hmapne hmap, List.mergeSort_singleton]
  have harr : ((p :: ps).filter fun q =>
      mondayOf q.date = mondayOf (((p :: ps).head hne).date)) = p :: ps := by
    rw [List.filter_eq_self]
    intro a ha
    simpa using hweek a ha
  simp only [List.map_cons, List.map_nil]
  rw [harr]
  rw [headD_of_ne_nil _ hne, getLastD_of_ne_nil _ hne,
    jsMaxFold_eq_maximum, jsMinFold_eq_minimum, foldl_add_map, zero_add]
  simp only [List.map_cons]

/-- C6 (witness at a concrete two-bar input within one week). -/
theorem downsample_single_week_witness :
    downsampleToWeekly [bar 0 1, bar 1 2] =
      [⟨mondayOf ((([bar 0 1, bar 1 2] : List PriceData).head (by simp)).date),
        (([bar 0 1, bar 1 2] : List PriceData).head (by simp)).open_,
        (([bar 0 1, bar 1 2] : List PriceData).getLast (by simp)).close,
        (([bar 0 1, bar 1 2] : List PriceData).map (·.high)).maximum,
        (([bar 0 1, bar 1 2] : List PriceData).map (·.low)).minimum,
        (([bar 0 1, bar 1 2] : List PriceData).map fun r => r.volume.getD 0).sum⟩] ∧
    downsampleToWeekly [] = [] :=
  downsample_single_week [bar 0 1, bar 1 2] (by simp)
    (by simp [bar])
    (by
      intro q hq
      simp only [List.mem_cons, List.not_mem_nil, or_false] at hq
      rcases hq with rfl | rfl <;> rfl)

theorem seasonalTrace_body (data : List PriceData) (inPeriod : Nat → Bool)
    (measure : PriceField) (L : Nat) :
    seasonalTrace data inPeriod measure L =
      match (subPeriod data inPeriod L).head? with
      | none => none
      | some f0 =>
        let priorData := data.filter fun e => e.date < f0.date
        let baseline :=
          match (priorData.mergeSort fun a b => decide (b.date ≤ a.date)).head? with
          | none => f0.field measure
          | some p => p.field measure
        if baseline = 0 then none
        else some (seasonalYValues ((subPeriod data inPeriod L).map (·.field measure))
          baseline L) := rfl

/-- C7: whenever the Time Explorer emits a trace for a year, its baseline
is the last observation strictly before the sub-period's first date
(falling back to the sub-period's own first value when no prior data
exists), the baseline is nonzero (zero baselines skip the year), each
day's value is `((value - baseline)/baseline)*100`, and day indices the
sub-period does not reach stay `null`. -/
theorem seasonal_baseline_normalization (data : List PriceData) (inPeriod : Nat → Bool)
    (measure : PriceField) (L : Nat)
    (hasc : data.Pairwise fun a b => a.date < b.date)
    (ys : List (Option ℚ)) (hys : seasonalTrace data inPeriod measure L = some ys) :
    specBaseline data inPeriod measure L ≠ 0 ∧
    (∀ i, i < (subPeriod data inPeriod L).length →
      ys.getD i none = some
        ((((subPeriod data inPeriod L).getD i default).field measure -
            specBaseline data inPeriod measure L) /
          specBaseline data inPeriod measure L * 100)) ∧
    (∀ i, (subPeriod data inPeriod L).length ≤ i → ys.getD i none = none) := by
  rw [seasonalTrace_body] at hys
  cases hh : (subPeriod data inPeriod L).head? with
  | none =>
    rw [hh] at hys
    exact absurd hys (by simp)
  | some f0 =>
    rw [hh] at hys
    simp only at hys
    have hbase :
        (match ((data.filter fun e => e.date < f0.date).mergeSort
            fun a b => decide (b.date ≤ a.date)).head? with
         | none => f0.field measure
         | some p => p.field measure) = specBaseline data inPeriod measure L := by
      have hhd : (subPeriod data inPeriod L).headD default = f0 := by
        rw [List.headD_eq_head?_getD, hh]
        rfl
      rw [specBaseline]
      simp only [hhd]
      rw [mergeSort_desc_head _ (hasc.filter _)]
      cases (data.filter fun e => e.date < f0.date).getLast? <;> rfl
    rw [hbase] at hys
    by_cases hb : specBaseline data inPeriod measure L = 0
    · rw [if_pos hb] at hys
      exact absurd hys (by simp)
    · rw [if_neg hb] at hys
      have hys' := (Option.some_injective _ hys).symm
      subst hys'
      refine ⟨hb, ?_, ?_⟩
      · intro i hi
        have hiL : i < L :=
          lt_of_lt_of_le hi (by rw [subPeriod]; exact List.length_take_le L _)
        rw [seasonalYValues, fillGo_getD _ _ _ 0 _ i (by simp)]
        rw [if_pos (by simp only [List.length_map]; omega)]
        simp only [Nat.sub_zero]
        have hmap : ((subPeriod data inPeriod L).map (·.field measure)).getD i 0 =
            ((subPeriod data inPeriod L).getD i default).field measure := by
          rw [List.getD_eq_getElem _ _ (by simpa using hi),
            List.getD_eq_getElem _ _ hi, List.getElem_map]
        rw [hmap]
      · intro i hi
        rw [seasonalYValues, fillGo_getD _ _ _ 0 _ i (by simp)]
        rw [if_neg (by simp only [List.length_map]; omega)]
        exact getD_replicate_none L i

/-- C7 (witness: a year whose last prior close is 50 and whose first
in-period close is 55 plots day 1 at 10 percent). -/
theorem seasonal_baseline_normalization_witness :
    specBaseline [bar 0 50, bar 10 55] (fun d => decide (10 ≤ d)) PriceField.close 5 ≠ 0 ∧
    ([some (10 : ℚ), none, none, none, none] : List (Option ℚ)).getD 0 none =
      some ((((subPeriod [bar 0 50, bar 10 55] (fun d => decide (10 ≤ d))
            5).getD 0 default).field PriceField.close -
          specBaseline [bar 0 50, bar 10 55] (fun d => decide (10 ≤ d)) PriceField.close 5) /
        specBaseline [bar 0 50, bar 10 55] (fun d => decide (10 ≤ d)) PriceField.close 5 *
          100) := by
  have h := seasonal_baseline_normalization [bar 0 50, bar 10 55]
    (fun d => decide (10 ≤ d)) PriceField.close 5
    (by simp [bar])
    [some 10, none, none, none, none]
    (by norm_num [seasonalTrace, subPeriod, bar, seasonalYValues, fillGo, PriceData.field,
      List.replicate, List.set])
  refine ⟨h.1, h.2.1 0 ?_⟩
  norm_num [subPeriod, bar]

/-- C8: every function of the analytics module is total and degrades on
empty or short input to the empty list, a `null`-filled list, `null`, or
the fallback constant `0` — never an exception (totality of each Lean
function models the absence of throws; the equations below pin the
degraded values the source's guards produce). -/
theorem analytics_total_on_degenerate_input :
    (∀ period, smaSeries [] period = []) ∧
    (∀ period, emaSeries [] period = []) ∧
    (∀ period, rsiSeries [] period = []) ∧
    (∀ fast slow signal, macdSeries [] fast slow signal = []) ∧
    (∀ volumes, obvSeries [] volumes = []) ∧
    (∀ lows closes period, atrSeries [] lows closes period = []) ∧
    (∀ kPeriod dPeriod, stochasticSeries [] [] [] kPeriod dPeriod = ([], [])) ∧
    (∀ sqrtFn period mult, bollingerSeries sqrtFn [] period mult = ⟨[], [], []⟩) ∧
    (∀ period, rocSeries [] period = []) ∧
    (∀ period f, calculateReturnsSeries [] period f = []) ∧
    downsampleToWeekly [] = [] ∧
    (∀ days, changeOverDays [] days = 0) ∧
    (∀ sqrtFn yearOf currentYear, computePriceStats sqrtFn yearOf currentYear [] = none) ∧
    (∀ sqrtFn yearOf currentYear d rest,
      (computePriceStats sqrtFn yearOf currentYear (d :: rest)).isSome = true) ∧
    (∀ values period, values.length < period → simpleSMA values period = none) ∧
    (∀ (closes : List ℚ) period, closes.length < period →
      ∀ i, (smaSeries closes period).getD i none = none) ∧
    (∀ (closes : List ℚ) period, closes.length ≤ period →
      ∀ i, (rocSeries closes period).getD i none = none) := by
  refine ⟨fun _ => rfl, fun _ => rfl, fun _ => rfl, fun _ _ _ => rfl, fun _ => rfl,
    fun _ _ _ => rfl, fun _ _ => rfl, fun _ _ _ => rfl, fun _ => rfl, fun _ _ => rfl,
    rfl, fun _ => rfl, fun _ _ _ => rfl, fun _ _ _ _ _ => rfl, ?_, ?_, ?_⟩
  · intro values period h
    rw [simpleSMA, if_pos h]
  · intro closes period h i
    rcases lt_or_ge i closes.length with hi | hi
    · exact smaSeries_getD_of_lt closes period (by omega)
    · have : (smaSeries closes period).length ≤ i := by
        rw [smaSeries_length]; exact hi
      exact getD_eq_none_of_ge _ this
  · intro closes period h i
    rcases lt_or_ge i closes.length with hi | hi
    · exact rocSeries_getD_none closes period (by omega)
    · have : (rocSeries closes period).length ≤ i := by
        rw [rocSeries_length]; exact hi
      exact getD_eq_none_of_ge _ this

/-- C8 (witness at concrete degenerate inputs). -/
theorem analytics_total_witness :
    simpleSMA [1] 2 = none ∧
    (smaSeries [1] 2).getD 0 none = none ∧
    (computePriceStats id (fun _ => 0) 0 [bar 0 10]).isSome = true := by
  obtain ⟨-, -, -, -, -, -, -, -, -, -, -, -, -, hsome, hsimple, hsma, -⟩ :=
    analytics_total_on_degenerate_input
  exact ⟨hsimple [1] 2 (by norm_num), hsma [1] 2 (by norm_num) 0,
    hsome id (fun _ => 0) 0 (bar 0 10) []⟩

/-- C1: every series-producing function returns an array whose length
equals its primary input's length, with the uncomputable leading positions
holding `null`; a seasonal-alignment trace instead always has the declared
window length (5, 21, 63 or 252). -/
theorem series_length_alignment :
    (∀ (closes : List ℚ) period, (smaSeries closes period).length = closes.length ∧
      ∀ i, i + 1 < period → (smaSeries closes period).getD i none = none) ∧
    (∀ (closes : List ℚ) period, (emaSeries closes period).length = closes.length ∧
      ∀ i, i + 1 < period → (emaSeries closes period).getD i none = none) ∧
    (∀ (closes : List ℚ) period, (rsiSeries closes period).length = closes.length ∧
      ∀ i, i = 0 ∨ i < period → (rsiSeries closes period).getD i none = none) ∧
    (∀ (closes : List ℚ) fast slow signal,
      (macdSeries closes fast slow signal).length = closes.length ∧
      ∀ i, i + 1 < max (max fast slow) signal →
        (macdSeries closes fast slow signal).getD i none = none) ∧
    (∀ (closes volumes : List ℚ), (obvSeries closes volumes).length = closes.length) ∧
    (∀ (highs lows closes : List ℚ) period,
      (atrSeries highs lows closes period).length = highs.length ∧
      ∀ i, i + 1 < period → (atrSeries highs lows closes period).getD i none = none) ∧
    (∀ (highs lows closes : List ℚ) kPeriod dPeriod,
      (stochasticSeries highs lows closes kPeriod dPeriod).1.length = closes.length ∧
      (stochasticSeries highs lows closes kPeriod dPeriod).2.length = closes.length ∧
      (∀ i, i + 1 < kPeriod →
        (stochasticSeries highs lows closes kPeriod dPeriod).1.getD i none = none) ∧
      (∀ i, i + 1 < kPeriod + dPeriod - 1 →
        (stochasticSeries highs lows closes kPeriod dPeriod).2.getD i none = none)) ∧
    (∀ sqrtFn (closes : List ℚ) period mult,
      (bollingerSeries sqrtFn closes period mult).middle.length = closes.length ∧
      (bollingerSeries sqrtFn closes period mult).upper.length = closes.length ∧
      (bollingerSeries sqrtFn closes period mult).lower.length = closes.length ∧
      ∀ i, i + 1 < period →
        (bollingerSeries sqrtFn closes period mult).middle.getD i none = none ∧
        (bollingerSeries sqrtFn closes period mult).upper.getD i none = none ∧
        (bollingerSeries sqrtFn closes period mult).lower.getD i none = none) ∧
    (∀ (closes : List ℚ) period, (rocSeries closes period).length = closes.length ∧
      ∀ i, i < period → (rocSeries closes period).getD i none = none) ∧
    (∀ (priceData : List PriceData) period f,
      (calculateReturnsSeries priceData period f).length = priceData.length ∧
      ∀ i, i < period → (calculateReturnsSeries priceData period f).getD i none = none) ∧
    (∀ (data : List PriceData) (inPeriod : Nat → Bool) (measure : PriceField) (w : Window)
      (ys : List (Option ℚ)),
      seasonalTrace data inPeriod measure (windowLengths w) = some ys →
      ys.length = windowLengths w) ∧
    (windowLengths .week = 5 ∧ windowLengths .month = 21 ∧
      windowLengths .quarter = 63 ∧ windowLengths .year = 252) := by
  refine ⟨?_, ?_, ?_, ?_, ?_, ?_, ?_, ?_, ?_, ?_, ?_, rfl, rfl, rfl, rfl⟩
  · exact fun closes period => ⟨smaSeries_length closes period,
      fun i h => smaSeries_getD_of_lt closes period h⟩
  · exact fun closes period => ⟨emaSeries_length closes period,
      fun i h => emaSeries_getD_none closes period h⟩
  · exact fun closes period => ⟨rsiSeries_length closes period,
      fun i h => rsiSeries_getD_none closes period h⟩
  · exact fun closes fast slow signal => ⟨macdSeries_length closes fast slow signal,
      fun i h => macdSeries_getD_none closes fast slow signal h⟩
  · exact fun closes volumes => obvSeries_length closes volumes
  · exact fun highs lows closes period => ⟨atrSeries_length highs lows closes period,
      fun i h => atrSeries_getD_none highs lows closes period h⟩
  · exact fun highs lows closes kPeriod dPeriod =>
      ⟨stochasticSeries_k_length highs lows closes kPeriod dPeriod,
       stochasticSeries_d_length highs lows closes kPeriod dPeriod,
       fun i h => stochasticK_getD_none highs lows closes kPeriod h,
       fun i h => stochasticSeries_d_getD_none highs lows closes kPeriod dPeriod h⟩
  · intro sqrtFn closes period mult
    refine ⟨by rw [bollingerSeries_middle]; exact smaSeries_length closes period,
      bollingerSeries_upper_length sqrtFn closes period mult,
      bollingerSeries_lower_length sqrtFn closes period mult, ?_⟩
    intro i h
    refine ⟨by rw [bollingerSeries_middle]; exact smaSeries_getD_of_lt closes period h, ?_, ?_⟩
    · rcases lt_or_ge i closes.length with hi | hi
      · rw [bollingerSeries_upper_getD sqrtFn closes period mult hi, if_pos h]
      · refine getD_eq_none_of_ge _ ?_
        rw [bollingerSeries_upper_length]
        exact hi
    · rcases lt_or_ge i closes.length with hi | hi
      · rw [bollingerSeries_lower_getD sqrtFn closes period mult hi, if_pos h]
      · refine getD_eq_none_of_ge _ ?_
        rw [bollingerSeries_lower_length]
        exact hi
  · exact fun closes period => ⟨rocSeries_length closes period,
      fun i h => rocSeries_getD_none closes period h⟩
  · exact fun priceData period f => ⟨calculateReturnsSeries_length priceData period f,
      fun i h => calculateReturnsSeries_getD_none priceData period f h⟩
  · intro data inPeriod measure w ys h
    rw [seasonalTrace_body] at h
    cases hh : (subPeriod data inPeriod (windowLengths w)).head? with
    | none =>
      rw [hh] at h
      exact absurd h (by simp)
    | some f0 =>
      rw [hh] at h
      simp only at h
      by_cases hb : (match ((data.filter fun e => e.date < f0.date).mergeSort
          fun a b => decide (b.date ≤ a.date)).head? with
        | none => f0.field measure
        | some p => p.field measure) = 0
      · rw [if_pos hb] at h
        exact absurd h (by simp)
      · rw [if_neg hb] at h
        have := (Option.some_injective _ h).symm
        subst this
        exact seasonalYValues_length _ _ _

/-- C1 (witness at concrete inputs for the conjuncts with hypotheses). -/
theorem series_length_alignment_witness :
    (smaSeries [1, 2, 3] 2).length = 3 ∧
    (smaSeries [1, 2, 3] 2).getD 0 none = none ∧
    (macdSeries [1, 2, 3] 12 26 9).getD 0 none = none ∧
    ([some (10 : ℚ), none, none, none, none] : List (Option ℚ)).length =
      windowLengths .week := by
  obtain ⟨hsma, -, -, hmacd, -, -, -, -, -, -, hseas, hwin⟩ := series_length_alignment
  refine ⟨(hsma [1, 2, 3] 2).1, (hsma [1, 2, 3] 2).2 0 (by norm_num),
    (hmacd [1, 2, 3] 12 26 9).2 0 (by norm_num), ?_⟩
  refine hseas [bar 0 50, bar 10 55] (fun d => decide (10 ≤ d)) PriceField.close .week
    [some 10, none, none, none, none] ?_
  norm_num [seasonalTrace, subPeriod, bar, seasonalYValues, fillGo, PriceData.field,
    List.replicate, List.set, windowLengths]

end ChasingProphets

